import Mathlib

/-!
Shallow embedding of `src/extractor2000.py` (class `ImprovedExperimentRunner`).

Python strings are modelled as `List Char`; the helper functions below embed
the Python string primitives the script uses (`str.strip`, `str.lower`,
`str.split`, `in`, `str.replace`, `str.startswith`, `str.endswith`).
`str.lower` and `str.strip` are embedded on their ASCII behaviour (the
script only ever feeds them planner output and file names); Unicode-only
case mappings and Unicode whitespace are outside the model.
-/

/-- The ASCII whitespace characters recognised by Python's `str.strip()` /
`str.split()` and by the regex class `\s`. -/
def isWs (c : Char) : Bool :=
  c = ' ' ∨ c = '\t' ∨ c = '\n' ∨ c = '\x0d' ∨ c = '\x0b' ∨ c = '\x0c'

/-- Embedding of Python `str.lower` on one character (ASCII range). -/
def pyLower (c : Char) : Char :=
  if 65 ≤ c.toNat ∧ c.toNat ≤ 90 then Char.ofNat (c.toNat + 32) else c

/-- Embedding of Python `str.lower`. -/
def lowerStr (s : List Char) : List Char := s.map pyLower

/-- Embedding of Python `str.lstrip()`. -/
def lstrip (s : List Char) : List Char := s.dropWhile isWs

/-- Embedding of Python `str.rstrip()`. -/
def rstrip (s : List Char) : List Char := (s.reverse.dropWhile isWs).reverse

/-- Embedding of Python `str.strip()`. -/
def pyStrip (s : List Char) : List Char := rstrip (lstrip s)

/-- Embedding of Python `text.split(sep)` for a one-character separator
(empty pieces are kept, as in Python). -/
def splitChar (sep : Char) : List Char → List (List Char)
  | [] => [[]]
  | c :: rest =>
    match splitChar sep rest with
    | [] => [[]]
    | p :: ps => if c = sep then [] :: p :: ps else (c :: p) :: ps

/-- Accumulator worker for `splitWS` (the accumulator holds the current word,
reversed). -/
def wordsAux : List Char → List Char → List (List Char)
  | [], acc => if acc = [] then [] else [acc.reverse]
  | c :: rest, acc =>
    if isWs c then
      if acc = [] then wordsAux rest []
      else acc.reverse :: wordsAux rest []
    else wordsAux rest (c :: acc)

/-- Embedding of Python `str.split()` with no argument: split on runs of
whitespace, discarding empty pieces. -/
def splitWS (s : List Char) : List (List Char) := wordsAux s []

/-- Embedding of Python `old in hay` substring test. -/
def pyIn (needle hay : List Char) : Bool := decide (needle <:+: hay)

/-- Embedding of Python `s.replace(old, new)` (all non-overlapping,
left-to-right occurrences; for `old = []` Python inserts between characters,
a case the script never exercises, modelled as the identity). -/
def pyReplace (s old new : List Char) : List Char :=
  match s with
  | [] => []
  | c :: rest =>
    if h : old ≠ [] ∧ old.isPrefixOf (c :: rest) then
      new ++ pyReplace ((c :: rest).drop old.length) old new
    else
      c :: pyReplace rest old new
termination_by s.length
decreasing_by
  · have h1 : 1 ≤ old.length := List.length_pos.mpr h.1
    simp only [List.length_drop, List.length_cons]
    omega
  · simp [List.length_cons]

/-! ### The runner's static tables (`ImprovedExperimentRunner.__init__`) -/

/-- `self.planners`. -/
def planners : List String := ["lama-first", "dual-bfws-ffparser", "delfi", "optic"]

/-- `self.blacklist`: the 25 (planner, domain, problem) triples skipped
before submission. -/
def blacklist : List (String × String × String) := [
  ("lama-first", "barman", "instance-15.pddl"),
  ("dual-bfws-ffparser", "barman", "instance-3.pddl"),
  ("dual-bfws-ffparser", "barman", "instance-7.pddl"),
  ("dual-bfws-ffparser", "barman", "instance-12.pddl"),
  ("dual-bfws-ffparser", "barman", "instance-15.pddl"),
  ("optic", "barman", "instance-1.pddl"),
  ("optic", "barman", "instance-2.pddl"),
  ("optic", "barman", "instance-3.pddl"),
  ("optic", "barman", "instance-5.pddl"),
  ("optic", "barman", "instance-7.pddl"),
  ("optic", "barman", "instance-10.pddl"),
  ("optic", "barman", "instance-12.pddl"),
  ("optic", "barman", "instance-15.pddl"),
  ("delfi", "barman", "instance-1.pddl"),
  ("delfi", "barman", "instance-2.pddl"),
  ("delfi", "barman", "instance-3.pddl"),
  ("delfi", "barman", "instance-5.pddl"),
  ("delfi", "barman", "instance-7.pddl"),
  ("delfi", "barman", "instance-10.pddl"),
  ("delfi", "barman", "instance-12.pddl"),
  ("delfi", "barman", "instance-15.pddl"),
  ("optic", "blocksworld", "problema_08_dificil.pddl"),
  ("delfi", "blocksworld", "problema_05_medio.pddl"),
  ("delfi", "blocksworld", "problema_06_medio.pddl"),
  ("delfi", "blocksworld", "problema_09_dificil.pddl")]

/-- `self.extended_timeouts`: per-planner association lists, in the source's
(= Python dict insertion) order. -/
def extended_timeouts : List (String × List (String × Nat)) := [
  ("lama-first",
    [("dificil", 3600), ("LOGISTICS-5", 3600), ("LOGISTICS-7", 3600),
     ("LOGISTICS-8", 3600), ("LOGISTICS-9", 3600), ("instance-3", 3600),
     ("instance-5", 3600), ("facil", 3600), ("medio", 3600), ("default", 3600)]),
  ("dual-bfws-ffparser",
    [("dificil", 3600), ("LOGISTICS-5", 3600), ("LOGISTICS-7", 3600),
     ("LOGISTICS-8", 3600), ("LOGISTICS-9", 3600), ("instance-1", 3600),
     ("instance-2", 3600), ("instance-5", 3600), ("facil", 3600),
     ("medio", 3600), ("default", 3600)]),
  ("delfi",
    [("dificil", 10800), ("LOGISTICS-5", 7200), ("LOGISTICS-7", 9000),
     ("LOGISTICS-8", 10800), ("LOGISTICS-9", 10800), ("instance-3", 7200),
     ("instance-5", 9000), ("facil", 5400), ("medio", 7200), ("default", 7200)]),
  ("optic",
    [("facil", 720), ("medio", 900), ("LOGISTICS-4", 840), ("LOGISTICS-5", 960),
     ("LOGISTICS-7", 1080), ("instance-1", 720), ("instance-2", 840),
     ("default", 840)])]

/-- `self.domain_actions`: per-domain valid action vocabulary. -/
def domain_actions : List (String × List String) := [
  ("blocksworld", ["pick-up", "put-down", "stack", "unstack"]),
  ("barman",
    ["grasp", "leave", "fill-shot", "refill-shot", "empty-shot",
     "clean-shot", "pour-shot-to-clean-shaker", "pour-shot-to-used-shaker",
     "empty-shaker", "clean-shaker", "shake", "pour-shaker-to-shot"]),
  ("logistics",
    ["load-truck", "load-airplane", "unload-truck", "unload-airplane",
     "drive-truck", "fly-airplane"])]

/-- `self.domain_actions.get(domain, [])`, as character lists. -/
def vocabOf (domain : String) : List (List Char) :=
  (((domain_actions.find? (fun e => e.1 = domain)).map (fun e => e.2)).getD []).map
    String.data

/-- `self.results_dir`. -/
def results_dir : String := "data_collection_three_domains"

/-- `self.debug_dir`. -/
def debug_dir : String := "rerun_results_extended_timeout"

/-! ### `is_blacklisted`, `get_timeout`, `check_existing_result` -/

/-- `is_blacklisted(self, planner, domain, problem)`: exact tuple membership
in the blacklist. -/
def is_blacklisted (planner domain problem : String) : Bool :=
  blacklist.contains (planner, domain, problem)

/-- The per-planner timeout table `self.extended_timeouts.get(planner, {})`. -/
def timeoutTable (planner : String) : List (String × Nat) :=
  ((extended_timeouts.find? (fun e => e.1 = planner)).map (fun e => e.2)).getD []

/-- `get_timeout(self, planner, problem)`: first key (in insertion order)
that is a substring of the problem name wins; otherwise the table's
`"default"` entry; otherwise the global default 1800. -/
def get_timeout (planner problem : String) : Nat :=
  match (timeoutTable planner).find? (fun e => pyIn e.1.data problem.data) with
  | some e => e.2
  | none =>
    (((timeoutTable planner).find? (fun e => e.1 = "default")).map
      (fun e => e.2)).getD 1800

/-- One persisted artifact file as `check_existing_result` observes it:
`invalid` covers any content whose read, JSON parse, or field access raises
(the bare `except` swallows all of these); `record s n` covers content that
evaluates with truthiness `s` for `data.get('solved', False)` and integer
value `n` for `data.get('plan_length', 0)`. -/
inductive Artifact
  | invalid
  | record (solved : Bool) (plan_length : Int)
deriving DecidableEq

/-- The canonical success-artifact path
`os.path.join(self.results_dir, f"{domain}_{planner}_{problem.replace('.pddl','')}.json")`. -/
def resultPath (domain planner problem : String) : String :=
  results_dir ++ "/" ++ domain ++ "_" ++ planner ++ "_" ++
    String.mk (pyReplace problem.data ".pddl".data []) ++ ".json"

/-- `check_existing_result(self, domain, planner, problem)`, over a
filesystem oracle `fs` mapping a path to the artifact stored there
(`none` = `os.path.exists` is false). -/
def check_existing_result (fs : String → Option Artifact)
    (domain planner problem : String) : Bool × Option (Bool × Int) :=
  match fs (resultPath domain planner problem) with
  | none => (false, none)
  | some .invalid => (false, none)
  | some (.record s n) =>
    if s ∧ 0 < n then (true, some (s, n)) else (false, none)

/-! ### `_parse_plan_text`: the plan-text extraction subsystem

The four generic regex patterns and the Delfi salvage regex are embedded by
their (deterministic) matching semantics on `List Char`; each embedding is
annotated with the Python pattern it models. -/

/-- Embedding of Python `line.startswith(p)`. -/
def startsWith (p l : List Char) : Bool := decide (p <+: l)

/-- Embedding of Python `line.endswith(s)`. -/
def endsWith (s l : List Char) : Bool := decide (s <:+ l)

/-- Pattern `^\s*\(([^)]+)\)\s*$` under `re.match`: optional leading
whitespace, `(`, a nonempty run of non-`)` characters (the capture), the
first `)`, then only whitespace to the end of the line. -/
def pat1 (l : List Char) : Option (List Char) :=
  match l.dropWhile isWs with
  | '(' :: rest =>
    let body := rest.takeWhile (fun c => c ≠ ')')
    match rest.drop body.length with
    | ')' :: tail => if body ≠ [] ∧ tail.all isWs then some body else none
    | _ => none
  | _ => none

/-- Shared tail of patterns 2 and 3: `\(([^)]+)\)` at the current position
(the trailing optional `(?:\s*\[[\d.]+\])?` of pattern 2 can never affect
whether the match succeeds, nor the capture, so it is not represented). -/
def parenCapture (r : List Char) : Option (List Char) :=
  match r with
  | '(' :: rest =>
    let body := rest.takeWhile (fun c => c ≠ ')')
    match rest.drop body.length with
    | ')' :: _ => if body ≠ [] then some body else none
    | _ => none
  | _ => none

/-- Pattern `^\s*[\d.]+:\s*\(([^)]+)\)(?:\s*\[[\d.]+\])?` under `re.match`:
a nonempty run of digits/dots, `:`, optional whitespace, then a
parenthesised capture; the rest of the line is unconstrained. -/
def pat2 (l : List Char) : Option (List Char) :=
  let l1 := l.dropWhile isWs
  let num := l1.takeWhile (fun c => c.isDigit ∨ c = '.')
  if num = [] then none
  else
    match l1.drop num.length with
    | ':' :: r1 => parenCapture (r1.dropWhile isWs)
    | _ => none

/-- Pattern `^\s*\d+:\s*\(([^)]+)\)` under `re.match` (subsumed by
pattern 2, which is tried first, but embedded for fidelity). -/
def pat3 (l : List Char) : Option (List Char) :=
  let l1 := l.dropWhile isWs
  let num := l1.takeWhile (fun c => c.isDigit)
  if num = [] then none
  else
    match l1.drop num.length with
    | ':' :: r1 => parenCapture (r1.dropWhile isWs)
    | _ => none

/-- The character class `[A-Z\-]` under `re.IGNORECASE`. -/
def isAlphaHyphen (c : Char) : Bool := c.isAlpha ∨ c = '-'

/-- The character class `[A-Z0-9\-]` under `re.IGNORECASE`. -/
def isAlnumHyphen (c : Char) : Bool := c.isAlphanum ∨ c = '-'

/-- The greedy iterated group `(?:\s+[A-Z0-9\-]+)*` of pattern 4: as long as
a whitespace run is followed by a word of the class, consume both. -/
def pat4Rest (r : List Char) : List Char :=
  let ws := r.takeWhile isWs
  if h : ws = [] then []
  else
    let r1 := r.drop ws.length
    let w := r1.takeWhile isAlnumHyphen
    if h2 : w = [] then []
    else ws ++ w ++ pat4Rest (r1.drop w.length)
termination_by r.length
decreasing_by
  have hws : 1 ≤ (r.takeWhile isWs).length := List.length_pos.mpr h
  have hwsle : (r.takeWhile isWs).length ≤ r.length := by
    simpa using (List.takeWhile_prefix (l := r) (p := isWs)).length_le
  simp only [List.length_drop]
  omega

/-- Pattern `^\s*step\s+\d+:\s*([A-Z\-]+(?:\s+[A-Z0-9\-]+)*)` under
`re.match` with `re.IGNORECASE`. -/
def pat4 (l : List Char) : Option (List Char) :=
  let l1 := l.dropWhile isWs
  if lowerStr (l1.take 4) = "step".data then
    let r0 := l1.drop 4
    let ws1 := r0.takeWhile isWs
    if ws1 = [] then none
    else
      let r1 := r0.drop ws1.length
      let ds := r1.takeWhile (fun c => c.isDigit)
      if ds = [] then none
      else
        match r1.drop ds.length with
        | ':' :: r2 =>
          let r3 := r2.dropWhile isWs
          let w1 := r3.takeWhile isAlphaHyphen
          if w1 = [] then none
          else some (w1 ++ pat4Rest (r3.drop w1.length))
        | _ => none
  else none

/-- Python word characters (`\w` / the complement of `\b`-relevant
non-word characters), ASCII range. -/
def isWordChar (c : Char) : Bool := c.isAlphanum ∨ c = '_'

/-- One attempt of the Delfi salvage regex `\b{action}\s+[^()]+` anchored at
the current position (the word boundary `\b` is checked by the caller):
the literal action name, then at least one whitespace character, then at
least one non-parenthesis character, both runs greedy; when the greedy
whitespace run is followed directly by a parenthesis or the end of the
line, the regex backtracks one whitespace character into `[^()]+`. -/
def salvageAt (action l : List Char) : Option (List Char) :=
  if startsWith action l then
    let r := l.drop action.length
    let ws := r.takeWhile isWs
    if ws = [] then none
    else
      let np := (r.drop ws.length).takeWhile (fun c => c ≠ '(' ∧ c ≠ ')')
      if np ≠ [] then some (action ++ ws ++ np)
      else if 2 ≤ ws.length then some (action ++ ws)
      else none
  else none

/-- The word-boundary `\b` test at a position whose preceding character is
`prev` (`none` = start of line), for a pattern starting with a word
character. -/
def boundaryOk (prev : Option Char) : Bool :=
  match prev with
  | none => true
  | some p => ¬ isWordChar p

/-- `re.search` for the Delfi salvage regex: leftmost starting position
wins; a position qualifies for `\b` when it is the start of the line or the
previous character is not a word character (every vocabulary action name
starts with a word character). -/
def searchSalvage (action : List Char) : List Char → Option Char → Option (List Char)
  | [], _ => none
  | c :: rest, prev =>
    match (if boundaryOk prev then salvageAt action (c :: rest) else none) with
    | some m => some m
    | none => searchSalvage action rest (some c)

/-- The inner `for action in valid_actions` loop of the Delfi branch: the
first vocabulary action that occurs in the lowercased line and whose
salvage regex matches contributes `f"({match.group(0).strip()})"`. -/
def salvageLoop (ll : List Char) : List (List Char) → Option (List Char)
  | [] => none
  | a :: rest =>
    if pyIn a ll then
      match searchSalvage a ll none with
      | some m => some ('(' :: (pyStrip m ++ [')']))
      | none => salvageLoop ll rest
    else salvageLoop ll rest

/-- Processing of one line inside the Delfi plan section (after the
`in_plan_section` flag is set): strip; skip empty lines, comment lines and
lines containing a colon; a fully parenthesised line is a literal action
record gated by the vocabulary; otherwise a line mentioning a vocabulary
action is salvaged by regex. -/
def delfiLine (vocab : List (List Char)) (line : List Char) : Option (List Char) :=
  let l := pyStrip line
  if l = [] ∨ startsWith [';'] l ∨ l.contains ':' then none
  else if startsWith ['('] l ∧ endsWith [')'] l then
    let actionText := lowerStr (pyStrip ((l.drop 1).dropLast))
    match splitWS actionText with
    | p :: _ => if p ∈ vocab then some ('(' :: (actionText ++ [')'])) else none
    | [] => none
  else
    let ll := lowerStr l
    if vocab.any (fun a => pyIn a ll) then salvageLoop ll vocab
    else none

/-- The Delfi-branch scan over the lines of the text, carrying the
`in_plan_section` flag (marker lines set the flag and are not themselves
parsed; the markers are tested on the raw, unstripped line). -/
def delfiScan (vocab : List (List Char)) : Bool → List (List Char) → List (List Char)
  | _, [] => []
  | inSec, line :: rest =>
    if pyIn "Solution found!".data line ∨ pyIn "Plan length:".data line then
      delfiScan vocab true rest
    else if pyIn "Plan cost:".data line ∨ pyIn "Actual search time:".data line then
      delfiScan vocab true rest
    else if inSec then
      match delfiLine vocab line with
      | some a => a :: delfiScan vocab true rest
      | none => delfiScan vocab true rest
    else delfiScan vocab false rest

/-- The shared acceptance step of the generic fallback: lowercase and strip
the captured text, gate its first whitespace-token on the vocabulary, wrap
in parentheses unless it already starts with one. -/
def acceptCapture (vocab : List (List Char)) (g : List Char) : Option (List Char) :=
  let actionText := lowerStr (pyStrip g)
  match splitWS actionText with
  | p :: _ =>
    if p ∈ vocab then
      some (if startsWith ['('] actionText then actionText
            else '(' :: (actionText ++ [')']))
    else none
  | [] => none

/-- The generic fallback on one line: strip; skip empty and comment lines;
try the four patterns in order, moving to the next pattern when a pattern
matches but its capture fails the vocabulary gate (the `break` sits inside
the vocabulary check). -/
def genericLine (vocab : List (List Char)) (line : List Char) : Option (List Char) :=
  let l := pyStrip line
  if l = [] ∨ startsWith [';'] l then none
  else
    match (pat1 l).bind (acceptCapture vocab) with
    | some a => some a
    | none =>
      match (pat2 l).bind (acceptCapture vocab) with
      | some a => some a
      | none =>
        match (pat3 l).bind (acceptCapture vocab) with
        | some a => some a
        | none => (pat4 l).bind (acceptCapture vocab)

/-- `_parse_plan_text(self, text, domain, planner)`. -/
def parse_plan_text (text : List Char) (domain planner : String) : List (List Char) :=
  let vocab := vocabOf domain
  if pyIn "caught signal".data text ∨ pyIn "exiting".data text then []
  else
    let lines := splitChar '\n' text
    let plan :=
      if planner = "delfi" ∧
          (pyIn "Solution found!".data text ∨ pyIn "Plan length:".data text) then
        delfiScan vocab false lines
      else []
    if plan = [] then lines.filterMap (genericLine vocab) else plan

/-! ### `extract_plan` -/

/-- The structured `result['output']` object (present only when the field
exists and is a dict; the script reads at most its `plan` and `sas_plan`
entries, each of which it stringifies). -/
structure SolverOutput where
  plan : Option String
  sas_plan : Option String
deriving DecidableEq

/-- The nested `result` object of a poll response: optional structured
output and optional raw stdout text. -/
structure SolverResult where
  output : Option SolverOutput
  stdout : Option String
deriving DecidableEq

/-- The candidate text sources, in the priority order the code builds them:
structured `plan`, structured `sas_plan`, then raw stdout. -/
def sourcesOf (res : SolverResult) : List (List Char) :=
  (match res.output with
   | some o =>
     (match o.plan with | some s => [s.data] | none => []) ++
     (match o.sas_plan with | some s => [s.data] | none => [])
   | none => []) ++
  (match res.stdout with | some s => [s.data] | none => [])

/-- The `for source in sources` loop: skip falsy (empty) sources, return
the first parse that is nonempty. -/
def extractGo (planner domain : String) : List (List Char) → List (List Char)
  | [] => []
  | s :: rest =>
    if s ≠ [] then
      let plan := parse_plan_text s domain planner
      if plan ≠ [] then plan else extractGo planner domain rest
    else extractGo planner domain rest

/-- `extract_plan(self, result, planner, domain)`. -/
def extract_plan (res : SolverResult) (planner domain : String) : List (List Char) :=
  extractGo planner domain (sourcesOf res)

/-! ### `should_save_debug` and the debug-state cache -/

/-- The part of a `monitor_delfi_progress` snapshot that `should_save_debug`
consults: `progress_info.get('evaluated', 0)` and
`progress_info.get('current_f')` (`none` = key absent).  The other snapshot
fields never influence control flow. -/
structure ProgressInfo where
  evaluated : Option Int
  current_f : Option Int
deriving DecidableEq

/-- The empty snapshot `{}`. -/
def ProgressInfo.empty : ProgressInfo := ⟨none, none⟩

/-- `self.last_debug_state`, an insertion-ordered dict keyed by
`f"{planner}_{domain}_{problem}"`. -/
abbrev DebugState : Type := List (List Char × ProgressInfo)

/-- The dict key `f"{planner}_{domain}_{problem}"`. -/
def debugKey (planner domain problem : String) : List Char :=
  (planner ++ "_" ++ domain ++ "_" ++ problem).data

/-- Dict read: `self.last_debug_state[key]` / `key in self.last_debug_state`. -/
def lookupDS (st : DebugState) (k : List Char) : Option ProgressInfo :=
  (List.find? (fun e => e.1 = k) st).map (fun e => e.2)

/-- Dict assignment `self.last_debug_state[key] = v` (update in place when
the key exists, else append, as Python dicts do). -/
def insertDS (st : DebugState) (k : List Char) (v : ProgressInfo) : DebugState :=
  if (List.find? (fun e => e.1 = k) st).isSome then
    st.map (fun e => if e.1 = k then (k, v) else e)
  else st ++ [(k, v)]

/-- `should_save_debug(self, planner, domain, problem, progress_info)`:
returns the decision together with the updated `last_debug_state`. -/
def should_save_debug (st : DebugState) (planner domain problem : String)
    (pi : ProgressInfo) : Bool × DebugState :=
  match lookupDS st (debugKey planner domain problem) with
  | none => (true, insertDS st (debugKey planner domain problem) pi)
  | some last =>
    if planner = "delfi" then
      if pi.evaluated.getD 0 - last.evaluated.getD 0 > 1000 then
        (true, insertDS st (debugKey planner domain problem) pi)
      else if pi.current_f ≠ last.current_f then
        (true, insertDS st (debugKey planner domain problem) pi)
      else (false, st)
    else (false, st)

/-! ### `run_experiment_with_extended_timeout`: the execution controller

The controller's externally visible behaviour is modelled as a pure
function over an environment oracle (`RunEnv`) describing what the
filesystem and the remote service would answer, returning the result
record together with the chronological list of side effects (network
submissions, network polls, artifact writes).  Wall-clock readings are
abstracted: the `while time.time() - start < timeout` loop is modelled by
the finite list `env.polls` of poll iterations the clock admits before the
timeout budget elapses, and the 30-second progress throttle by a `tick`
flag on each poll.  The `int(time.time())` suffixes of `DEBUG_`/`TIMEOUT_`
file names are not modelled. -/

/-- One side effect of the controller, in chronological order. -/
inductive Effect
  | netPost
  | netGet
  | write (dir : String) (name : String)
deriving DecidableEq

/-- The body of one 200 poll response: the optional `status` field and the
optional nested `result` object. -/
structure RespData where
  status : Option String
  result : Option SolverResult
deriving DecidableEq

/-- The outcome of one iteration of the polling loop: `transient` covers a
request exception, a non-200 status code or a JSON decode failure (all
swallowed by the inner `except` / skipped by the status-code check);
`response d tick` is a 200 JSON response, with `tick` recording whether
more than 30 seconds of wall time passed since the last progress report. -/
inductive PollOutcome
  | transient
  | response (d : RespData) (tick : Bool)

/-- The outcome of the initial POST: `exn msg` is an exception raised by
the request or by decoding its JSON body (caught by the outer `except`,
whose message is truncated to 100 characters); `http code resultField` is
a completed request with the given status code and, when the body decodes,
its optional `result` (poll-URL) field. -/
inductive PostOutcome
  | exn (msg : String)
  | http (code : Nat) (resultField : Option String)

/-- The environment oracle for one run: loaded domains, the results
directory, problem-file existence, and the remote service's behaviour.
`monitor` abstracts `monitor_delfi_progress`, whose regex extraction of
(floating-point) timings never influences control flow except through the
`evaluated`/`current_f` fields consulted by `should_save_debug`. -/
structure RunEnv where
  domains : String → Option String
  resultsFs : String → Option Artifact
  problemExists : String → Bool
  post : PostOutcome
  polls : List PollOutcome
  monitor : String → ProgressInfo

/-- The fresh `result_data` record (the fields whose values the claims
mention; `timestamp` and the elapsed `time` are wall-clock readings and
are not modelled). -/
structure ResultData where
  rdomain : String
  rplanner : String
  rproblem : String
  timeout_used : Nat
  solved : Bool
  plan : List (List Char)
  plan_length : Nat
  raw : Option RespData
  error : Option String
  progress_info : ProgressInfo
deriving DecidableEq

/-- The initial `result_data` dict. -/
def initRD (planner problem domain : String) (timeout : Nat) : ResultData :=
  { rdomain := domain, rplanner := planner, rproblem := problem,
    timeout_used := timeout, solved := false, plan := [], plan_length := 0,
    raw := none, error := none, progress_info := ProgressInfo.empty }

/-- The value returned by `run_experiment_with_extended_timeout`: the three
ad-hoc dict shapes and the full result record. -/
inductive RunResult
  | skipped
  | cached (solved : Bool) (plan_length : Int)
  | localError (error : String)
  | finished (r : ResultData)

/-- File name stem `problem.replace('.pddl', '')`. -/
def stemOf (problem : String) : String :=
  String.mk (pyReplace problem.data ".pddl".data [])

/-- `f"{domain}_{planner}_{stem}.json"` (success artifact). -/
def successName (domain planner problem : String) : String :=
  domain ++ "_" ++ planner ++ "_" ++ stemOf problem ++ ".json"

/-- `f"{domain}_{planner}_{stem}_FAILED.json"`. -/
def failedName (domain planner problem : String) : String :=
  domain ++ "_" ++ planner ++ "_" ++ stemOf problem ++ "_FAILED.json"

/-- `f"TIMEOUT_{domain}_{planner}_{stem}_..json"` (timestamp suffix not
modelled). -/
def timeoutName (domain planner problem : String) : String :=
  "TIMEOUT_" ++ domain ++ "_" ++ planner ++ "_" ++ stemOf problem ++ ".json"

/-- `f"DEBUG_{domain}_{planner}_{stem}_..json"` (timestamp suffix not
modelled). -/
def debugName (domain planner problem : String) : String :=
  "DEBUG_" ++ domain ++ "_" ++ planner ++ "_" ++ stemOf problem ++ ".json"

/-- The state threaded through the polling loop. -/
structure LoopSt where
  rd : ResultData
  dbg : DebugState
  debugSaveCount : Nat

/-- The update of `result_data` on a status-"ok" poll: `raw` is set to the
response, and `progress_info` is refreshed from the result's stdout when
present (lines 440-445 of the source). -/
def updateRaw (env : RunEnv) (rd : ResultData) (d : RespData) : ResultData :=
  match d.result with
  | some res =>
    match res.stdout with
    | some out => { { rd with raw := some d } with progress_info := env.monitor out }
    | none => { rd with raw := some d }
  | none => { rd with raw := some d }

/-- The polling loop (lines 426-505 of the source): one recursive step per
iteration the timeout budget admits; exhausting `polls` is the
`while`-condition turning false, i.e. the extended-timeout exit. -/
def pollLoop (env : RunEnv) (planner domain problem : String) :
    List PollOutcome → LoopSt → ResultData × List Effect × DebugState
  | [], st =>
    ({ st.rd with error := some "Extended timeout reached" },
     [Effect.write debug_dir (timeoutName domain planner problem)], st.dbg)
  | poll :: rest, st =>
    match poll with
    | .transient =>
      let out := pollLoop env planner domain problem rest st
      (out.1, Effect.netGet :: out.2.1, out.2.2)
    | .response d tick =>
      if d.status = some "ok" then
        match d.result with
        | some res =>
          let rd2 := updateRaw env st.rd d
          let plan := extract_plan res planner domain
          if plan ≠ [] then
            ({ rd2 with solved := true, plan := plan, plan_length := plan.length },
             [Effect.netGet, Effect.write results_dir (successName domain planner problem)],
             st.dbg)
          else
            if tick then
              if planner = "delfi" ∧ st.debugSaveCount < 5 then
                let sd := should_save_debug st.dbg planner domain problem rd2.progress_info
                if sd.1 then
                  let out := pollLoop env planner domain problem rest
                    { rd := rd2, dbg := sd.2, debugSaveCount := st.debugSaveCount + 1 }
                  (out.1,
                   Effect.netGet ::
                     Effect.write debug_dir (debugName domain planner problem) :: out.2.1,
                   out.2.2)
                else
                  let out := pollLoop env planner domain problem rest
                    { rd := rd2, dbg := sd.2, debugSaveCount := st.debugSaveCount }
                  (out.1, Effect.netGet :: out.2.1, out.2.2)
              else
                let out := pollLoop env planner domain problem rest { st with rd := rd2 }
                (out.1, Effect.netGet :: out.2.1, out.2.2)
            else
              let out := pollLoop env planner domain problem rest { st with rd := rd2 }
              (out.1, Effect.netGet :: out.2.1, out.2.2)
        | none =>
          let out := pollLoop env planner domain problem rest
            { st with rd := updateRaw env st.rd d }
          (out.1, Effect.netGet :: out.2.1, out.2.2)
      else if d.status = some "error" ∨ d.status = some "failed" then
        ({ st.rd with error := some "Planning failed" },
         [Effect.netGet, Effect.write debug_dir (failedName domain planner problem)],
         st.dbg)
      else
        let out := pollLoop env planner domain problem rest st
        (out.1, Effect.netGet :: out.2.1, out.2.2)

/-- `run_experiment_with_extended_timeout(self, planner, problem, domain,
problem_dir)`, returning the result, the chronological effect list, and the
updated `last_debug_state`. -/
def run_experiment_with_extended_timeout (env : RunEnv)
    (planner problem domain problem_dir : String) (dbg : DebugState) :
    RunResult × List Effect × DebugState :=
  if is_blacklisted planner domain problem then
    (RunResult.skipped, [], dbg)
  else
    match check_existing_result env.resultsFs domain planner problem with
    | (true, some data) => (RunResult.cached data.1 data.2, [], dbg)
    | _ =>
      match env.domains domain with
      | none => (RunResult.localError "Domain not loaded", [], dbg)
      | some content =>
        if content = "" then (RunResult.localError "Domain not loaded", [], dbg)
        else if ¬ env.problemExists (problem_dir ++ "/" ++ problem) then
          (RunResult.localError "Problem file not found", [], dbg)
        else
          let timeout := get_timeout planner problem
          let rd0 := initRD planner problem domain timeout
          match env.post with
          | .exn msg =>
            (RunResult.finished { rd0 with error := some (String.mk (msg.data.take 100)) },
             [Effect.netPost, Effect.write debug_dir (failedName domain planner problem)],
             dbg)
          | .http code resultField =>
            if code ≠ 200 then
              (RunResult.finished { rd0 with error := some ("HTTP " ++ toString code) },
               [Effect.netPost, Effect.write debug_dir (failedName domain planner problem)],
               dbg)
            else
              match resultField with
              | none =>
                (RunResult.finished { rd0 with error := some "No result URL" },
                 [Effect.netPost, Effect.write debug_dir (failedName domain planner problem)],
                 dbg)
              | some _ =>
                let out := pollLoop env planner domain problem env.polls
                  { rd := rd0, dbg := dbg, debugSaveCount := 0 }
                (RunResult.finished out.1, Effect.netPost :: out.2.1, out.2.2)

/-! ### Basic lemmas about the string primitives -/

theorem char_ofNat_toNat_small : ∀ n : Fin 123, (Char.ofNat n.val).toNat = n.val := by
  decide

theorem pyLower_idem (c : Char) : pyLower (pyLower c) = pyLower c := by
  unfold pyLower
  by_cases h : 65 ≤ c.toNat ∧ c.toNat ≤ 90
  · rw [if_pos h]
    have h2 : (Char.ofNat (c.toNat + 32)).toNat = c.toNat + 32 :=
      char_ofNat_toNat_small ⟨c.toNat + 32, by omega⟩
    rw [if_neg]
    omega
  · rw [if_neg h, if_neg h]

theorem pyLower_fixed_of_mem_lowerStr {c : Char} {s : List Char}
    (h : c ∈ lowerStr s) : pyLower c = c := by
  rcases List.mem_map.mp h with ⟨c0, _, rfl⟩
  exact pyLower_idem c0

theorem lowerStr_fixed_of_all {s : List Char} (h : ∀ c ∈ s, pyLower c = c) :
    lowerStr s = s := by
  have h2 := List.map_congr_left (f := pyLower) (g := fun c => c) h
  simpa [lowerStr] using h2

theorem lowerStr_idem (s : List Char) : lowerStr (lowerStr s) = lowerStr s :=
  lowerStr_fixed_of_all (fun _ hc => pyLower_fixed_of_mem_lowerStr hc)

/-! ### Claim C3: `get_timeout` -/

theorem timeoutTable_cases (p : String) :
    timeoutTable p = [] ∨ ∃ e ∈ extended_timeouts, timeoutTable p = e.2 := by
  unfold timeoutTable
  rcases h : extended_timeouts.find? (fun e => e.1 = p) with _ | e
  · left
    rw [h]
    rfl
  · right
    exact ⟨e, List.mem_of_find?_eq_some h, by rw [h]; rfl⟩

theorem extended_timeouts_values_pos :
    ∀ e ∈ extended_timeouts, ∀ kv ∈ e.2, 0 < kv.2 := by decide

theorem extended_timeouts_default_pos :
    ∀ e ∈ extended_timeouts,
      0 < (((e.2.find? (fun kv => kv.1 = "default")).map (fun kv => kv.2)).getD 1800) := by
  decide

theorem get_timeout_pos (p q : String) : 0 < get_timeout p q := by
  unfold get_timeout
  rcases timeoutTable_cases p with h | ⟨e, he, h⟩
  · rw [h]
    simp
  · rw [h]
    rcases hf : e.2.find? (fun kv => pyIn kv.1.data q.data) with _ | kv
    · rw [hf]
      simpa using extended_timeouts_default_pos e he
    · rw [hf]
      simpa using
        extended_timeouts_values_pos e he kv (List.mem_of_find?_eq_some hf)

/-- C3: `get_timeout` is total and positive for every planner and problem
name; it returns the value of the first key, in the planner table's
insertion order, that is a substring of the problem name; with no matching
key it falls back to the table's `"default"` entry (1800 when that is also
absent); an unknown planner gets 1800; and
`get_timeout("delfi", "instance-3.pddl")` is the configured 7200, the
`"instance-3"` entry winning over `"default"`. -/
theorem C3_get_timeout_total_first_match :
    (∀ planner problem, 0 < get_timeout planner problem) ∧
    (∀ planner problem e,
      (timeoutTable planner).find? (fun kv => pyIn kv.1.data problem.data) = some e →
      get_timeout planner problem = e.2) ∧
    (∀ planner problem,
      (timeoutTable planner).find? (fun kv => pyIn kv.1.data problem.data) = none →
      get_timeout planner problem =
        ((((timeoutTable planner).find? (fun kv => kv.1 = "default")).map
            (fun kv => kv.2)).getD 1800)) ∧
    (∀ planner problem,
      extended_timeouts.find? (fun e => e.1 = planner) = none →
      get_timeout planner problem = 1800) ∧
    get_timeout "delfi" "instance-3.pddl" = 7200 := by
  refine ⟨get_timeout_pos, ?_, ?_, ?_, by decide⟩
  · intro planner problem e hf
    unfold get_timeout
    rw [hf]
  · intro planner problem hf
    unfold get_timeout
    rw [hf]
  · intro planner problem hf
    unfold get_timeout timeoutTable
    rw [hf]
    rfl

/-- Witness for C3 at a concrete input: the delfi lookup example. -/
theorem C3_witness :
    (timeoutTable "delfi").find?
        (fun kv => pyIn kv.1.data "instance-35.pddl".data) =
      some ("instance-3", 7200) ∧
    get_timeout "delfi" "instance-35.pddl" = 7200 :=
  ⟨by decide,
   C3_get_timeout_total_first_match.2.1 "delfi" "instance-35.pddl"
     ("instance-3", 7200) (by decide)⟩

/-! ### Claim C1: blacklisted experiments -/

/-- A trivial environment oracle. -/
def trivEnv : RunEnv :=
  { domains := fun _ => none, resultsFs := fun _ => none,
    problemExists := fun _ => false, post := PostOutcome.exn "",
    polls := [], monitor := fun _ => ProgressInfo.empty }

/-- C1: for every triple in the blacklist, the controller returns the
skipped result `{"solved": False, "error": "Blacklisted", "skipped": True}`
with an empty effect list — no network request and no artifact write —
for every environment, in particular whatever the result cache contains. -/
theorem C1_blacklist_skips_without_effects :
    ∀ p d q, (p, d, q) ∈ blacklist →
    ∀ (env : RunEnv) (pdir : String) (dbg : DebugState),
      run_experiment_with_extended_timeout env p q d pdir dbg =
        (RunResult.skipped, [], dbg) := by
  intro p d q hmem env pdir dbg
  have hb : is_blacklisted p d q = true := by
    unfold is_blacklisted
    exact List.elem_iff.mpr hmem
  unfold run_experiment_with_extended_timeout
  rw [hb]
  rfl

/-- Witness for C1: a concrete blacklisted triple, with an environment
whose cache would also have answered. -/
theorem C1_witness :
    run_experiment_with_extended_timeout
      { trivEnv with resultsFs := fun _ => some (Artifact.record true 3) }
      "lama-first" "instance-15.pddl" "barman" "barman_files" [] =
      (RunResult.skipped, [], []) :=
  C1_blacklist_skips_without_effects "lama-first" "barman" "instance-15.pddl"
    (by decide)
    { trivEnv with resultsFs := fun _ => some (Artifact.record true 3) }
    "barman_files" []

/-! ### Claim C2: `check_existing_result` -/

/-- C2: `check_existing_result` is total (the embedding is a function; the
Python `try`/bare `except` wraps the read, the parse and the field checks),
and it answers `(True, data)` exactly when the canonical artifact exists,
parses, and has truthy `solved` and `plan_length > 0`; in every other case
it answers `(False, None)`. -/
theorem C2_check_existing_result_characterisation :
    ∀ (fs : String → Option Artifact) (d p q : String),
      (∀ s n, check_existing_result fs d p q = (true, some (s, n)) ↔
        (fs (resultPath d p q) = some (Artifact.record s n) ∧ s = true ∧ 0 < n)) ∧
      ((¬ ∃ s n, fs (resultPath d p q) = some (Artifact.record s n) ∧
          s = true ∧ 0 < n) →
        check_existing_result fs d p q = (false, none)) := by
  intro fs d p q
  constructor
  · intro s n
    unfold check_existing_result
    rcases h : fs (resultPath d p q) with _ | a
    · simp
    · cases a with
      | invalid => simp
      | record s' n' =>
        dsimp only
        by_cases hc : s' = true ∧ 0 < n'
        · rw [if_pos hc]
          constructor
          · intro he
            have h1 : s' = s ∧ n' = n := by
              simpa using he
            exact ⟨by rw [h1.1, h1.2], h1.1 ▸ hc.1, h1.2 ▸ hc.2⟩
          · intro ⟨he, _, _⟩
            have h1 : s' = s ∧ n' = n := by
              simpa using he
            simp [h1.1, h1.2]
        · rw [if_neg hc]
          constructor
          · intro he
            simp at he
          · intro ⟨he, hs, hn⟩
            have h1 : s' = s ∧ n' = n := by
              simpa using he
            exact absurd ⟨h1.1 ▸ hs, h1.2 ▸ hn⟩ hc
  · intro hne
    unfold check_existing_result
    rcases h : fs (resultPath d p q) with _ | a
    · rfl
    · cases a with
      | invalid => rfl
      | record s' n' =>
        dsimp only
        rw [if_neg]
        intro hc
        exact hne ⟨s', n', h, hc.1, hc.2⟩

/-- Witness for C2: a concrete filesystem holding a valid success artifact
for the key, and a concrete miss. -/
theorem C2_witness :
    (check_existing_result
        (fun path => if path = resultPath "blocksworld" "lama-first" "problema_01_facil.pddl"
                     then some (Artifact.record true 7) else none)
        "blocksworld" "lama-first" "problema_01_facil.pddl" = (true, some (true, 7))) ∧
    (check_existing_result (fun _ => none) "barman" "optic" "instance-1.pddl" =
      (false, none)) := by
  constructor
  · exact ((C2_check_existing_result_characterisation
      (fun path => if path = resultPath "blocksworld" "lama-first" "problema_01_facil.pddl"
                   then some (Artifact.record true 7) else none)
      "blocksworld" "lama-first" "problema_01_facil.pddl").1 true 7).mpr
      ⟨by simp, rfl, by norm_num⟩
  · exact (C2_check_existing_result_characterisation
      (fun _ => none) "barman" "optic" "instance-1.pddl").2
      (by rintro ⟨s, n, h, -, -⟩; cases h)

/-! ### Claim C5: signal markers force an empty plan -/

/-- C5: any text containing `"caught signal"` (or `"exiting"`) parses to
the empty plan, for every planner and domain, whatever else the text
contains. -/
theorem C5_signal_text_parses_empty :
    ∀ (text : List Char) (domain planner : String),
      (pyIn "caught signal".data text = true ∨ pyIn "exiting".data text = true) →
      parse_plan_text text domain planner = [] := by
  intro text domain planner h
  unfold parse_plan_text
  rcases h with h | h <;> simp [h]

/-- Witness for C5: plan-like content after a `caught signal` marker is
discarded. -/
theorem C5_witness :
    parse_plan_text "Solution found!\n(pick-up a b)\ncaught signal".data
      "blocksworld" "delfi" = [] :=
  C5_signal_text_parses_empty _ "blocksworld" "delfi" (Or.inl (by decide))

/-! ### Claims C7 and C9: `should_save_debug` -/

theorem lookupDS_map_update_self (st : DebugState) (k : List Char)
    (v : ProgressInfo) (h : (List.find? (fun e => e.1 = k) st).isSome) :
    lookupDS (st.map (fun e => if e.1 = k then (k, v) else e)) k = some v := by
  induction st with
  | nil => simp at h
  | cons e rest ih =>
    by_cases he : e.1 = k
    · unfold lookupDS
      rw [List.map_cons, if_pos he,
        List.find?_cons_of_pos _ (by simp)]
      rfl
    · unfold lookupDS
      rw [List.map_cons, if_neg he, List.find?_cons_of_neg _ (by simpa using he)]
      apply ih
      rw [List.find?_cons_of_neg _ (by simpa using he)] at h
      exact h

theorem lookupDS_map_update_ne (st : DebugState) (k' k : List Char)
    (v : ProgressInfo) (hne : k ≠ k') :
    lookupDS (st.map (fun e => if e.1 = k' then (k', v) else e)) k =
      lookupDS st k := by
  induction st with
  | nil => rfl
  | cons e rest ih =>
    by_cases he : e.1 = k'
    · unfold lookupDS
      rw [List.map_cons, if_pos he,
        List.find?_cons_of_neg _ (by simpa using fun hh => hne hh.symm),
        List.find?_cons_of_neg _ (by rw [he]; simpa using fun hh => hne hh.symm)]
      exact ih
    · unfold lookupDS
      rw [List.map_cons, if_neg he]
      by_cases hk : e.1 = k
      · rw [List.find?_cons_of_pos _ (by simpa using hk),
          List.find?_cons_of_pos _ (by simpa using hk)]
      · rw [List.find?_cons_of_neg _ (by simpa using hk),
          List.find?_cons_of_neg _ (by simpa using hk)]
        exact ih

theorem lookupDS_insert_self (st : DebugState) (k : List Char)
    (v : ProgressInfo) : lookupDS (insertDS st k v) k = some v := by
  unfold insertDS
  by_cases hs : (List.find? (fun e => e.1 = k) st).isSome
  · rw [if_pos hs]
    exact lookupDS_map_update_self st k v hs
  · rw [if_neg hs]
    unfold lookupDS
    rw [List.find?_append]
    have hn : List.find? (fun e => e.1 = k) st = none := by
      rcases hfind : List.find? (fun e => e.1 = k) st with _ | e
      · exact hfind
      · rw [hfind] at hs
        simp at hs
    rw [hn]
    simp

theorem lookupDS_insert_ne (st : DebugState) (k' k : List Char)
    (v : ProgressInfo) (hne : k ≠ k') :
    lookupDS (insertDS st k' v) k = lookupDS st k := by
  unfold insertDS
  by_cases hs : (List.find? (fun e => e.1 = k') st).isSome
  · rw [if_pos hs]
    exact lookupDS_map_update_ne st k' k v hne
  · rw [if_neg hs]
    unfold lookupDS
    rw [List.find?_append]
    have h1 : List.find? (fun e => e.1 = k) [(k', v)] = none := by
      rw [List.find?_cons_of_neg _ (by simpa using fun hh => hne hh.symm)]
      rfl
    rw [h1]
    rcases hfind : List.find? (fun e => e.1 = k) st with _ | e <;> simp

theorem lookupDS_insert_ne_none (st : DebugState) (k' k : List Char)
    (v : ProgressInfo) (h : lookupDS st k ≠ none) :
    lookupDS (insertDS st k' v) k ≠ none := by
  by_cases hk : k = k'
  · subst hk
    rw [lookupDS_insert_self]
    simp
  · rw [lookupDS_insert_ne st k' k v hk]
    exact h

/-- C9: for every planner other than `"delfi"`, `should_save_debug` answers
`True` on the first call for a key and `False` on every call whose key is
already tracked — and keys, once tracked, are never removed by any later
call, so every subsequent call for that key answers `False`: there is no
periodic saving for non-Delfi planners. -/
theorem C9_non_delfi_saves_first_only :
    (∀ (st : DebugState) (planner domain problem : String) (pi : ProgressInfo),
      planner ≠ "delfi" →
      (lookupDS st (debugKey planner domain problem) = none →
        (should_save_debug st planner domain problem pi).1 = true) ∧
      (lookupDS st (debugKey planner domain problem) ≠ none →
        (should_save_debug st planner domain problem pi).1 = false)) ∧
    (∀ (st : DebugState) (planner domain problem : String) (pi : ProgressInfo)
        (k : List Char),
      lookupDS st k ≠ none →
      lookupDS (should_save_debug st planner domain problem pi).2 k ≠ none) := by
  constructor
  · intro st planner domain problem pi hp
    constructor
    · intro h
      unfold should_save_debug
      rw [h]
    · intro h
      unfold should_save_debug
      rcases hl : lookupDS st (debugKey planner domain problem) with _ | last
      · exact absurd hl h
      · dsimp only
        rw [if_neg hp]
  · intro st planner domain problem pi k h
    unfold should_save_debug
    rcases hl : lookupDS st (debugKey planner domain problem) with _ | last
    · exact lookupDS_insert_ne_none st _ k pi h
    · dsimp only
      by_cases hp : planner = "delfi"
      · rw [if_pos hp]
        by_cases h1 : pi.evaluated.getD 0 - last.evaluated.getD 0 > 1000
        · rw [if_pos h1]
          exact lookupDS_insert_ne_none st _ k pi h
        · rw [if_neg h1]
          by_cases h2 : pi.current_f ≠ last.current_f
          · rw [if_pos h2]
            exact lookupDS_insert_ne_none st _ k pi h
          · rw [if_neg h2]
            exact h
      · rw [if_neg hp]
        exact h

/-- Witness for C9: a non-Delfi key saves on the first call and suppresses
a later snapshot even though its evaluated count grew by far more
than 1000. -/
theorem C9_witness :
    (should_save_debug [] "optic" "barman" "instance-1.pddl"
      ⟨some 100, none⟩).1 = true ∧
    (should_save_debug
        (should_save_debug [] "optic" "barman" "instance-1.pddl"
          ⟨some 100, none⟩).2
        "optic" "barman" "instance-1.pddl" ⟨some 5000, none⟩).1 = false := by
  constructor
  · exact (C9_non_delfi_saves_first_only.1 [] "optic" "barman" "instance-1.pddl"
      ⟨some 100, none⟩ (by decide)).1 (by rfl)
  · exact (C9_non_delfi_saves_first_only.1 _ "optic" "barman" "instance-1.pddl"
      ⟨some 5000, none⟩ (by decide)).2 (by decide)

/-- C7 counterexample, refuting the claim as stated for a non-Delfi key:
after a first saved snapshot with evaluated = 100, a snapshot with
evaluated = 5000 (a delta of 4900 > 1000) is nonetheless not saved,
because the planner is `"optic"`, not `"delfi"`. -/
theorem C7_counterexample :
    (should_save_debug
        (should_save_debug [] "optic" "barman" "instance-1.pddl"
          ⟨some 100, none⟩).2
        "optic" "barman" "instance-1.pddl" ⟨some 5000, none⟩).1 = false ∧
    ((5000 : Int) - 100 > 1000) := by
  constructor
  · decide
  · norm_num

/-- C7 (amended): the first snapshot for a key is always saved; for the
`"delfi"` planner (the only planner with change-driven re-saving), a later
snapshot is saved exactly when its evaluated count exceeds the last saved
snapshot's by more than 1000 or its current f-value differs from the last
saved one; the stored comparison state is updated exactly on the calls that
answer `True` (so deltas are measured against the last saved snapshot) —
illustrated by the evaluated = 100 / 150 / 1300 sequence. -/
theorem C7_should_save_debug_throttling :
    (∀ (st : DebugState) (planner domain problem : String) (pi : ProgressInfo),
      lookupDS st (debugKey planner domain problem) = none →
      (should_save_debug st planner domain problem pi).1 = true ∧
      (should_save_debug st planner domain problem pi).2 =
        insertDS st (debugKey planner domain problem) pi) ∧
    (∀ (st : DebugState) (domain problem : String) (pi last : ProgressInfo),
      lookupDS st (debugKey "delfi" domain problem) = some last →
      ((should_save_debug st "delfi" domain problem pi).1 = true ↔
        (pi.evaluated.getD 0 - last.evaluated.getD 0 > 1000 ∨
         pi.current_f ≠ last.current_f))) ∧
    (∀ (st : DebugState) (planner domain problem : String) (pi : ProgressInfo),
      (should_save_debug st planner domain problem pi).1 = false →
      (should_save_debug st planner domain problem pi).2 = st) ∧
    (∀ (st : DebugState) (planner domain problem : String) (pi : ProgressInfo),
      (should_save_debug st planner domain problem pi).1 = true →
      (should_save_debug st planner domain problem pi).2 =
        insertDS st (debugKey planner domain problem) pi) ∧
    ((should_save_debug [] "delfi" "blocksworld" "p.pddl"
        ⟨some 100, none⟩).1 = true ∧
     (should_save_debug
        (should_save_debug [] "delfi" "blocksworld" "p.pddl"
          ⟨some 100, none⟩).2
        "delfi" "blocksworld" "p.pddl" ⟨some 150, none⟩).1 = false ∧
     (should_save_debug
        (should_save_debug [] "delfi" "blocksworld" "p.pddl"
          ⟨some 100, none⟩).2
        "delfi" "blocksworld" "p.pddl" ⟨some 1300, none⟩).1 = true) := by
  refine ⟨?_, ?_, ?_, ?_, by decide, by decide, by decide⟩
  · intro st planner domain problem pi h
    unfold should_save_debug
    rw [h]
    exact ⟨rfl, rfl⟩
  · intro st domain problem pi last h
    unfold should_save_debug
    rw [h]
    dsimp only
    by_cases h1 : pi.evaluated.getD 0 - last.evaluated.getD 0 > 1000
    · simp [h1]
    · by_cases h2 : pi.current_f ≠ last.current_f
      · simp [h1, h2]
      · simp [h1, h2]
  · intro st planner domain problem pi
    unfold should_save_debug
    rcases hl : lookupDS st (debugKey planner domain problem) with _ | last
    · dsimp only
      intro h
      simp at h
    · dsimp only
      by_cases hp : planner = "delfi"
      · rw [if_pos hp]
        by_cases h1 : pi.evaluated.getD 0 - last.evaluated.getD 0 > 1000
        · rw [if_pos h1]
          intro h
          simp at h
        · rw [if_neg h1]
          by_cases h2 : pi.current_f ≠ last.current_f
          · rw [if_pos h2]
            intro h
            simp at h
          · rw [if_neg h2]
            intro _
            rfl
      · rw [if_neg hp]
        intro _
        rfl
  · intro st planner domain problem pi
    unfold should_save_debug
    rcases hl : lookupDS st (debugKey planner domain problem) with _ | last
    · dsimp only
      intro _
      rfl
    · dsimp only
      by_cases hp : planner = "delfi"
      · rw [if_pos hp]
        by_cases h1 : pi.evaluated.getD 0 - last.evaluated.getD 0 > 1000
        · rw [if_pos h1]
          intro _
          rfl
        · rw [if_neg h1]
          by_cases h2 : pi.current_f ≠ last.current_f
          · rw [if_pos h2]
            intro _
            rfl
          · rw [if_neg h2]
            intro h
            simp at h
      · rw [if_neg hp]
        intro h
        simp at h

/-- Witness for C7 (amended): a fresh delfi key is saved on first sight. -/
theorem C7_witness :
    (should_save_debug [] "delfi" "logistics" "probLOGISTICS-4-0.pddl"
      ⟨some 100, none⟩).1 = true :=
  (C7_should_save_debug_throttling.1 [] "delfi" "logistics"
    "probLOGISTICS-4-0.pddl" ⟨some 100, none⟩ (by decide)).1

/-! ### Claim C4: shape of extracted plan actions

`ValidAction vocab s` is the property claimed of every extracted action
string: parenthesised, fully lowercased, first whitespace-token in the
domain vocabulary. -/

/-- The claimed shape of one extracted action string. -/
def ValidAction (vocab : List (List Char)) (s : List Char) : Prop :=
  ∃ body a, s = '(' :: (body ++ [')']) ∧ lowerStr s = s ∧
    (splitWS body).head? = some a ∧ a ∈ vocab

/-- The properties of the hard-coded action vocabularies that the shape
proof uses: every action name is nonempty, whitespace-free, lowercase and
parenthesis-free. -/
def GoodVocab (vocab : List (List Char)) : Prop :=
  ∀ w ∈ vocab, w ≠ [] ∧ ∀ c ∈ w, isWs c = false ∧ pyLower c = c ∧
    c ≠ '(' ∧ c ≠ ')'

theorem goodVocab_vocabOf (domain : String) : GoodVocab (vocabOf domain) := by
  unfold vocabOf
  rcases h : domain_actions.find? (fun e => e.1 = domain) with _ | e
  · rw [h]
    intro w hw
    simp at hw
  · rw [h]
    have he := List.mem_of_find?_eq_some h
    fin_cases he <;>
      · intro w hw
        fin_cases hw <;> decide

theorem wordsAux_word_append (w t acc : List Char)
    (hw : ∀ c ∈ w, isWs c = false) :
    wordsAux (w ++ t) acc = wordsAux t (w.reverse ++ acc) := by
  induction w generalizing acc with
  | nil => simp
  | cons c w' ih =>
    have hc : isWs c = false := hw c (List.mem_cons_self c w')
    have hw' : ∀ x ∈ w', isWs x = false := fun x hx => hw x (List.mem_cons_of_mem _ hx)
    rw [List.cons_append]
    show (if isWs c then _ else wordsAux (w' ++ t) (c :: acc)) = _
    rw [hc]
    simp only [Bool.false_eq_true, if_false]
    rw [ih (c :: acc) hw']
    congr 1
    simp

theorem splitWS_head_word (w t : List Char) (hne : w ≠ [])
    (hw : ∀ c ∈ w, isWs c = false)
    (ht : t = [] ∨ ∃ c t', t = c :: t' ∧ isWs c = true) :
    (splitWS (w ++ t)).head? = some w := by
  unfold splitWS
  rw [wordsAux_word_append w t [] hw, List.append_nil]
  rcases ht with rfl | ⟨c, t', rfl, hc⟩
  · show ((if w.reverse = [] then ([] : List (List Char))
      else [w.reverse.reverse])).head? = some w
    rw [if_neg (by simpa using hne)]
    simp
  · show ((if isWs c then
        (if w.reverse = [] then wordsAux t' [] else w.reverse.reverse :: wordsAux t' [])
      else wordsAux t' (c :: w.reverse))).head? = some w
    rw [hc]
    simp only [if_true]
    rw [if_neg (by simpa using hne)]
    simp

theorem wordsAux_head_acc (rest : List Char) :
    ∀ acc : List Char, acc ≠ [] →
      ∃ w, (wordsAux rest acc).head? = some (acc.reverse ++ w) := by
  induction rest with
  | nil =>
    intro acc hacc
    refine ⟨[], ?_⟩
    show ((if acc = [] then ([] : List (List Char)) else [acc.reverse])).head? = _
    rw [if_neg hacc]
    simp
  | cons c r ih =>
    intro acc hacc
    by_cases hc : isWs c
    · refine ⟨[], ?_⟩
      show ((if isWs c then
          (if acc = [] then wordsAux r [] else acc.reverse :: wordsAux r [])
        else wordsAux r (c :: acc))).head? = _
      rw [hc]
      simp only [if_true]
      rw [if_neg hacc]
      simp
    · rcases ih (c :: acc) (by simp) with ⟨w, hw⟩
      refine ⟨c :: w, ?_⟩
      show ((if isWs c then
          (if acc = [] then wordsAux r [] else acc.reverse :: wordsAux r [])
        else wordsAux r (c :: acc))).head? = _
      rw [(by simpa using hc : isWs c = false)]
      simp only [Bool.false_eq_true, if_false]
      rw [hw]
      simp

theorem splitWS_cons_head (c : Char) (rest : List Char) (hc : isWs c = false) :
    ∃ w, (splitWS (c :: rest)).head? = some (c :: w) := by
  unfold splitWS
  show ∃ w, ((if isWs c then
      (if ([] : List Char) = [] then wordsAux rest [] else [].reverse :: wordsAux rest [])
    else wordsAux rest (c :: []))).head? = some (c :: w)
  rw [hc]
  simp only [Bool.false_eq_true, if_false]
  simpa using wordsAux_head_acc rest [c] (by simp)

theorem startsWith_iff (p l : List Char) : startsWith p l = true ↔ p <+: l := by
  unfold startsWith
  exact decide_eq_true_iff

theorem lstrip_cons_not_ws (c : Char) (r : List Char) (hc : isWs c = false) :
    lstrip (c :: r) = c :: r := by
  unfold lstrip
  exact List.dropWhile_cons_of_neg (by simp [hc])

theorem rstrip_prefix_self (s : List Char) : rstrip s <+: s := by
  have h : (rstrip s).reverse <:+ s.reverse := by
    unfold rstrip
    rw [List.reverse_reverse]
    exact List.dropWhile_suffix isWs
  exact List.reverse_suffix.mp h

theorem mem_of_mem_pyStrip {c : Char} {s : List Char} (h : c ∈ pyStrip s) :
    c ∈ s := by
  unfold pyStrip at h
  have h1 := (rstrip_prefix_self (lstrip s)).subset h
  exact (List.dropWhile_suffix isWs).subset h1

theorem rstrip_all_not_ws (s : List Char) (h : ∀ c ∈ s, isWs c = false) :
    rstrip s = s := by
  have h2 : s.reverse.dropWhile isWs = s.reverse := by
    cases hs : s.reverse with
    | nil => rfl
    | cons c r =>
      have hc : isWs c = false := by
        apply h
        rw [← List.mem_reverse, hs]
        exact List.mem_cons_self _ _
      exact List.dropWhile_cons_of_neg (by simp [hc])
  unfold rstrip
  rw [h2, List.reverse_reverse]

theorem rstrip_append_of_nil (x y : List Char) (h : rstrip y = []) :
    rstrip (x ++ y) = rstrip x := by
  have hy : y.reverse.dropWhile isWs = [] := by
    have := congrArg List.reverse h
    simpa [rstrip] using this
  unfold rstrip
  rw [List.reverse_append, List.dropWhile_append, hy]
  simp

theorem rstrip_append_of_ne (x y : List Char) (h : rstrip y ≠ []) :
    rstrip (x ++ y) = x ++ rstrip y := by
  have hy : ¬ (y.reverse.dropWhile isWs).isEmpty = true := by
    intro hem
    apply h
    unfold rstrip
    rw [List.isEmpty_iff.mp hem]
    rfl
  unfold rstrip
  rw [List.reverse_append, List.dropWhile_append, if_neg hy, List.reverse_append,
    List.reverse_reverse]

theorem prefix_nonempty_head {x : List Char} {c : Char} {r : List Char}
    (h : x <+: c :: r) (hne : x ≠ []) : ∃ x', x = c :: x' := by
  rcases x with _ | ⟨a, x'⟩
  · exact absurd rfl hne
  · rcases (List.cons_prefix_cons.mp h) with ⟨rfl, -⟩
    exact ⟨x', rfl⟩

theorem splitWS_pyStrip_word (a t : List Char) (ha : a ≠ [])
    (haw : ∀ c ∈ a, isWs c = false)
    (ht : ∃ c t', t = c :: t' ∧ isWs c = true) :
    (splitWS (pyStrip (a ++ t))).head? = some a := by
  rcases ht with ⟨c, t', rfl, hc⟩
  rcases a with _ | ⟨a0, a1⟩
  · exact absurd rfl ha
  have h0 : isWs a0 = false := haw a0 (List.mem_cons_self _ _)
  unfold pyStrip
  rw [List.cons_append, lstrip_cons_not_ws a0 _ h0, ← List.cons_append]
  by_cases hr : rstrip (c :: t') = []
  · rw [rstrip_append_of_nil _ _ hr, rstrip_all_not_ws _ haw]
    have := splitWS_head_word (a0 :: a1) [] ha haw (Or.inl rfl)
    simpa using this
  · rw [rstrip_append_of_ne _ _ hr]
    rcases prefix_nonempty_head (rstrip_prefix_self (c :: t')) hr with ⟨r', hr'⟩
    rw [hr']
    exact splitWS_head_word (a0 :: a1) (c :: r') ha haw (Or.inr ⟨c, r', rfl, hc⟩)

theorem drop_length_takeWhile (p : Char → Bool) (l : List Char) :
    l.drop (l.takeWhile p).length = l.dropWhile p := by
  induction l with
  | nil => rfl
  | cons c r ih =>
    by_cases hc : p c
    · rw [List.takeWhile_cons_of_pos hc, List.dropWhile_cons_of_pos hc,
        List.length_cons, List.drop_succ_cons, ih]
    · rw [List.takeWhile_cons_of_neg hc, List.dropWhile_cons_of_neg hc]
      rfl

theorem salvageAt_some {a l m : List Char} (h : salvageAt a l = some m) :
    m <+: l ∧ ∃ c t', m = a ++ (c :: t') ∧ isWs c = true := by
  unfold salvageAt at h
  by_cases hp : startsWith a l
  case neg =>
    rw [if_neg hp] at h
    cases h
  rw [if_pos hp] at h
  dsimp only at h
  rw [drop_length_takeWhile] at h
  have hal : a ++ l.drop a.length = l :=
    List.prefix_iff_eq_append.mp ((startsWith_iff a l).mp hp)
  have hsplit : (l.drop a.length).takeWhile isWs ++ (l.drop a.length).dropWhile isWs =
      l.drop a.length := List.takeWhile_append_dropWhile isWs _
  by_cases hws : (l.drop a.length).takeWhile isWs = []
  · rw [if_pos hws] at h
    cases h
  · rw [if_neg hws] at h
    rcases hwc : (l.drop a.length).takeWhile isWs with _ | ⟨c, ws1⟩
    · exact absurd hwc hws
    have hcw : isWs c = true := by
      apply List.mem_takeWhile_imp (l := l.drop a.length) (p := isWs)
      rw [hwc]
      exact List.mem_cons_self _ _
    have hnpsplit := List.takeWhile_append_dropWhile
      (fun x => decide (x ≠ '(' ∧ x ≠ ')')) ((l.drop a.length).dropWhile isWs)
    by_cases hnp : ((l.drop a.length).dropWhile isWs).takeWhile
        (fun x => x ≠ '(' ∧ x ≠ ')') ≠ []
    · rw [if_pos hnp] at h
      have hm : m = a ++ (l.drop a.length).takeWhile isWs ++
          ((l.drop a.length).dropWhile isWs).takeWhile
            (fun x => x ≠ '(' ∧ x ≠ ')') := by
        cases h
        rfl
      constructor
      · rw [hm]
        refine ⟨((l.drop a.length).dropWhile isWs).dropWhile
          (fun x => decide (x ≠ '(' ∧ x ≠ ')')), ?_⟩
        rw [List.append_assoc, List.append_assoc, hnpsplit, ← List.append_assoc,
          List.append_assoc, hsplit]
        exact hal
      · refine ⟨c, ws1 ++ ((l.drop a.length).dropWhile isWs).takeWhile
          (fun x => x ≠ '(' ∧ x ≠ ')'), ?_, hcw⟩
        rw [hm, hwc]
        simp
    · rw [if_neg hnp] at h
      by_cases h2 : 2 ≤ ((l.drop a.length).takeWhile isWs).length
      · rw [if_pos h2] at h
        have hm : m = a ++ (l.drop a.length).takeWhile isWs := by
          cases h
          rfl
        constructor
        · rw [hm]
          refine ⟨(l.drop a.length).dropWhile isWs, ?_⟩
          rw [List.append_assoc, hsplit]
          exact hal
        · refine ⟨c, ws1, ?_, hcw⟩
          rw [hm, hwc]
      · rw [if_neg h2] at h
        cases h

theorem searchSalvage_some {a m : List Char} :
    ∀ (l : List Char) (prev : Option Char),
      searchSalvage a l prev = some m →
      ∃ l', l' <:+ l ∧ salvageAt a l' = some m := by
  intro l
  induction l with
  | nil =>
    intro prev h
    cases h
  | cons c rest ih =>
    intro prev h
    unfold searchSalvage at h
    rcases hx : (if boundaryOk prev then salvageAt a (c :: rest) else none)
      with _ | m'
    · rw [hx] at h
      rcases ih (some c) h with ⟨l', hsuf, hsa⟩
      exact ⟨l', hsuf.trans (List.suffix_cons c rest), hsa⟩
    · rw [hx] at h
      have hm : m' = m := by
        cases h
        rfl
      by_cases hb : boundaryOk prev = true
      · rw [if_pos hb] at hx
        exact ⟨c :: rest, List.suffix_refl _, hm ▸ hx⟩
      · rw [if_neg hb] at hx
        cases hx

theorem salvageLoop_some {ll s : List Char} :
    ∀ vs : List (List Char), salvageLoop ll vs = some s →
      ∃ a ∈ vs, ∃ m, searchSalvage a ll none = some m ∧
        s = '(' :: (pyStrip m ++ [')']) := by
  intro vs
  induction vs with
  | nil =>
    intro h
    cases h
  | cons a rest ih =>
    intro h
    unfold salvageLoop at h
    by_cases hin : pyIn a ll
    · rw [if_pos hin] at h
      rcases hs : searchSalvage a ll none with _ | m
      · rw [hs] at h
        rcases ih h with ⟨a', ha', mm, hmm, hsm⟩
        exact ⟨a', List.mem_cons_of_mem _ ha', mm, hmm, hsm⟩
      · rw [hs] at h
        have hsm : '(' :: (pyStrip m ++ [')']) = s := by
          cases h
          rfl
        exact ⟨a, List.mem_cons_self _ _, m, hs, hsm.symm⟩
    · rw [if_neg hin] at h
      rcases ih h with ⟨a', ha', mm, hmm, hsm⟩
      exact ⟨a', List.mem_cons_of_mem _ ha', mm, hmm, hsm⟩

theorem lowerStr_pyStrip_searchSalvage {a l0 m : List Char}
    (h : searchSalvage a (lowerStr l0) none = some m) :
    lowerStr (pyStrip m) = pyStrip m := by
  rcases searchSalvage_some (lowerStr l0) none h with ⟨l', hsuf, hsa⟩
  apply lowerStr_fixed_of_all
  intro c hc
  have h1 : c ∈ m := mem_of_mem_pyStrip hc
  have h2 : c ∈ l' := (salvageAt_some hsa).1.subset h1
  have h3 : c ∈ lowerStr l0 := hsuf.subset h2
  exact pyLower_fixed_of_mem_lowerStr h3

theorem validAction_wrap {vocab : List (List Char)} {body a : List Char}
    (hlow : lowerStr body = body) (hhead : (splitWS body).head? = some a)
    (ha : a ∈ vocab) : ValidAction vocab ('(' :: (body ++ [')'])) := by
  refine ⟨body, a, rfl, ?_, hhead, ha⟩
  show List.map pyLower ('(' :: (body ++ [')'])) = '(' :: (body ++ [')'])
  rw [List.map_cons, List.map_append]
  rw [show pyLower '(' = '(' from by decide]
  rw [show List.map pyLower [')'] = [')'] from by decide]
  have hlow2 : List.map pyLower body = body := hlow
  rw [hlow2]

theorem delfiLine_valid {vocab : List (List Char)} (hv : GoodVocab vocab)
    {line s : List Char} (h : delfiLine vocab line = some s) :
    ValidAction vocab s := by
  unfold delfiLine at h
  dsimp only at h
  split at h
  · cases h
  · split at h
    · -- fully parenthesised line, vocabulary-gated
      split at h
      · rename_i p ps hsw
        split at h
        · rename_i hp
          have hs : '(' :: (lowerStr (pyStrip (((pyStrip line).drop 1).dropLast)) ++
              [')']) = s := by
            cases h
            rfl
          refine hs ▸ validAction_wrap (lowerStr_idem _) ?_ hp
          rw [hsw]
          rfl
        · cases h
      · cases h
    · -- salvage branch
      split at h
      · rcases salvageLoop_some vocab h with ⟨a, ha, m, hm, rfl⟩
        have hga := hv a ha
        rcases searchSalvage_some _ none hm with ⟨l', hsuf, hsa⟩
        rcases (salvageAt_some hsa).2 with ⟨c, t', hm2, hwc⟩
        have hhead : (splitWS (pyStrip m)).head? = some a := by
          rw [hm2]
          exact splitWS_pyStrip_word a (c :: t') hga.1
            (fun x hx => (hga.2 x hx).1) ⟨c, t', rfl, hwc⟩
        exact validAction_wrap (lowerStr_pyStrip_searchSalvage hm) hhead ha
      · cases h

theorem acceptCapture_valid {vocab : List (List Char)} (hv : GoodVocab vocab)
    {g s : List Char} (h : acceptCapture vocab g = some s) :
    ValidAction vocab s := by
  unfold acceptCapture at h
  dsimp only at h
  split at h
  · rename_i p ps hsw
    split at h
    · rename_i hp
      have hs : (if startsWith ['('] (lowerStr (pyStrip g))
          then lowerStr (pyStrip g)
          else '(' :: (lowerStr (pyStrip g) ++ [')'])) = s := by
        cases h
        rfl
      by_cases hst : startsWith ['('] (lowerStr (pyStrip g)) = true
      · exfalso
        rcases (startsWith_iff _ _).mp hst with ⟨t, ht⟩
        have hcons : lowerStr (pyStrip g) = '(' :: t := ht.symm
        rcases splitWS_cons_head '(' t (by decide) with ⟨w, hw⟩
        rw [← hcons, hsw] at hw
        have hpw : p = '(' :: w := by
          simpa using hw
        have := ((hv p hp).2 '(' (hpw ▸ List.mem_cons_self _ _)).2.2.1
        exact this rfl
      · rw [if_neg hst] at hs
        exact hs ▸ validAction_wrap (lowerStr_idem _) (by rw [hsw]; rfl) hp
    · cases h
  · cases h

theorem genericLine_valid {vocab : List (List Char)} (hv : GoodVocab vocab)
    {line s : List Char} (h : genericLine vocab line = some s) :
    ValidAction vocab s := by
  unfold genericLine at h
  dsimp only at h
  split at h
  · cases h
  · split at h
    · rename_i a1 hx1
      rcases Option.bind_eq_some.mp hx1 with ⟨g, -, hacc⟩
      have hs : a1 = s := by
        cases h
        rfl
      exact hs ▸ acceptCapture_valid hv hacc
    · split at h
      · rename_i a2 hx2
        rcases Option.bind_eq_some.mp hx2 with ⟨g, -, hacc⟩
        have hs : a2 = s := by
          cases h
          rfl
        exact hs ▸ acceptCapture_valid hv hacc
      · split at h
        · rename_i a3 hx3
          rcases Option.bind_eq_some.mp hx3 with ⟨g, -, hacc⟩
          have hs : a3 = s := by
            cases h
            rfl
          exact hs ▸ acceptCapture_valid hv hacc
        · rcases Option.bind_eq_some.mp h with ⟨g, -, hacc⟩
          exact acceptCapture_valid hv hacc

theorem delfiScan_mem {vocab : List (List Char)} {x : List Char} :
    ∀ (b : Bool) (lines : List (List Char)), x ∈ delfiScan vocab b lines →
      ∃ line, delfiLine vocab line = some x := by
  intro b lines
  induction lines generalizing b with
  | nil =>
    intro h
    simp [delfiScan] at h
  | cons line rest ih =>
    intro h
    unfold delfiScan at h
    split at h
    · exact ih true h
    · split at h
      · exact ih true h
      · split at h
        · split at h
          · rename_i aL hd
            rcases List.mem_cons.mp h with rfl | hrest
            · exact ⟨line, hd⟩
            · exact ih true hrest
          · exact ih true h
        · exact ih false h

/-- C4: every action string produced by `_parse_plan_text` — for any input
text, planner, and domain — is a parenthesised, fully lowercased string
whose first whitespace-token is in the domain's action vocabulary; and in
a blocksworld context the line `"(pick-up a b)"` yields exactly the action
`"(pick-up a b)"` while `"(foo a b)"` yields no action. -/
theorem C4_extracted_actions_shape :
    (∀ (text : List Char) (domain planner : String),
      ∀ s ∈ parse_plan_text text domain planner, ValidAction (vocabOf domain) s) ∧
    parse_plan_text "(pick-up a b)\n(foo a b)".data "blocksworld" "lama-first" =
      ["(pick-up a b)".data] := by
  constructor
  · intro text domain planner s hs
    unfold parse_plan_text at hs
    dsimp only at hs
    split at hs
    · simp at hs
    · split at hs
      · split at hs
        · rcases List.mem_filterMap.mp hs with ⟨line, -, hline⟩
          exact genericLine_valid (goodVocab_vocabOf domain) hline
        · rcases delfiScan_mem false _ hs with ⟨line, hline⟩
          exact delfiLine_valid (goodVocab_vocabOf domain) hline
      · rcases List.mem_filterMap.mp hs with ⟨line, -, hline⟩
        exact genericLine_valid (goodVocab_vocabOf domain) hline
  · rfl

/-- Witness for C4 at the blocksworld example. -/
theorem C4_witness :
    ValidAction (vocabOf "blocksworld") "(pick-up a b)".data := by
  apply C4_extracted_actions_shape.1 "(pick-up a b)\n(foo a b)".data
    "blocksworld" "lama-first"
  rw [C4_extracted_actions_shape.2]
  exact List.mem_singleton.mpr rfl

/-! ### Claim C6: `extract_plan` -/

theorem parse_plan_text_nil (domain planner : String) :
    parse_plan_text [] domain planner = [] := by
  unfold parse_plan_text
  dsimp only
  have h1 : ¬ ((pyIn "caught signal".data ([] : List Char) = true) ∨
      (pyIn "exiting".data ([] : List Char) = true)) := by decide
  rw [if_neg h1]
  have h2 : ¬ (planner = "delfi" ∧
      ((pyIn "Solution found!".data ([] : List Char) = true) ∨
       (pyIn "Plan length:".data ([] : List Char) = true))) := by
    rintro ⟨-, h⟩
    revert h
    decide
  rw [if_neg h2, if_pos rfl]
  rfl

theorem extractGo_all_empty (planner domain : String) :
    ∀ srcs : List (List Char),
      (∀ src ∈ srcs, parse_plan_text src domain planner = []) →
      extractGo planner domain srcs = [] := by
  intro srcs
  induction srcs with
  | nil =>
    intro _
    rfl
  | cons q rest ih =>
    intro h
    unfold extractGo
    dsimp only
    have hq := h q (List.mem_cons_self _ _)
    by_cases hqe : q ≠ []
    · rw [if_pos hqe, hq, if_neg (by simp)]
      exact ih (fun src hs => h src (List.mem_cons_of_mem _ hs))
    · rw [if_neg hqe]
      exact ih (fun src hs => h src (List.mem_cons_of_mem _ hs))

theorem extractGo_first (planner domain : String) :
    ∀ (pre : List (List Char)) (s0 : List Char) (rest : List (List Char)),
      (∀ src ∈ pre, parse_plan_text src domain planner = []) →
      parse_plan_text s0 domain planner ≠ [] →
      extractGo planner domain (pre ++ s0 :: rest) =
        parse_plan_text s0 domain planner := by
  intro pre
  induction pre with
  | nil =>
    intro s0 rest _ hne
    have hs0 : s0 ≠ [] := by
      rintro rfl
      exact hne (parse_plan_text_nil domain planner)
    rw [List.nil_append]
    unfold extractGo
    dsimp only
    rw [if_pos hs0, if_pos hne]
  | cons q pre' ih =>
    intro s0 rest hpre hne
    rw [List.cons_append]
    unfold extractGo
    dsimp only
    have hq := hpre q (List.mem_cons_self _ _)
    by_cases hqe : q ≠ []
    · rw [if_pos hqe, hq, if_neg (by simp)]
      exact ih s0 rest (fun src hs => hpre src (List.mem_cons_of_mem _ hs)) hne
    · rw [if_neg hqe]
      exact ih s0 rest (fun src hs => hpre src (List.mem_cons_of_mem _ hs)) hne

/-- C6: `extract_plan` is total (the embedding is a function); it gathers
its candidate sources in the priority order structured `plan`, structured
`sas_plan`, then raw stdout; it returns the parse of the first source
whose parse is non-empty (sources that are absent, falsy, or parse to
nothing are passed over); and it returns the empty list when every source
parses to nothing. -/
theorem C6_extract_plan_contract :
    (∀ (res : SolverResult) (planner domain : String),
      (∀ src ∈ sourcesOf res, parse_plan_text src domain planner = []) →
      extract_plan res planner domain = []) ∧
    (∀ (res : SolverResult) (planner domain : String)
        (pre rest : List (List Char)) (s0 : List Char),
      sourcesOf res = pre ++ s0 :: rest →
      (∀ src ∈ pre, parse_plan_text src domain planner = []) →
      parse_plan_text s0 domain planner ≠ [] →
      extract_plan res planner domain = parse_plan_text s0 domain planner) ∧
    (∀ (res : SolverResult) (o : SolverOutput) (s1 s2 s3 : String),
      res.output = some o → o.plan = some s1 → o.sas_plan = some s2 →
      res.stdout = some s3 → sourcesOf res = [s1.data, s2.data, s3.data]) := by
  refine ⟨?_, ?_, ?_⟩
  · intro res planner domain h
    unfold extract_plan
    exact extractGo_all_empty planner domain _ h
  · intro res planner domain pre rest s0 hsrc hpre hne
    unfold extract_plan
    rw [hsrc]
    exact extractGo_first planner domain pre s0 rest hpre hne
  · intro res o s1 s2 s3 h1 h2 h3 h4
    unfold sourcesOf
    rw [h1, h4]
    dsimp only
    rw [h2, h3]
    rfl

/-- Witness for C6: with no structured output, a stdout plan is parsed and
returned. -/
theorem C6_witness :
    extract_plan { output := none, stdout := some "(pick-up a)\n(stack a b)" }
      "lama-first" "blocksworld" =
      ["(pick-up a)".data, "(stack a b)".data] := by
  have h := C6_extract_plan_contract.2.1
    { output := none, stdout := some "(pick-up a)\n(stack a b)" }
    "lama-first" "blocksworld" [] [] "(pick-up a)\n(stack a b)".data
    rfl (by simp) (by decide)
  rw [h]
  rfl


/-! ### Claims C8 and C10: the polling loop and the controller -/

theorem updateRaw_fields (env : RunEnv) (rd : ResultData) (d : RespData) :
    (updateRaw env rd d).error = rd.error ∧
    (updateRaw env rd d).solved = rd.solved ∧
    (updateRaw env rd d).plan = rd.plan ∧
    (updateRaw env rd d).plan_length = rd.plan_length := by
  unfold updateRaw
  split
  · split <;> exact ⟨rfl, rfl, rfl, rfl⟩
  · exact ⟨rfl, rfl, rfl, rfl⟩

theorem pollLoop_error_persists (env : RunEnv) (planner domain problem : String) :
    ∀ (polls : List PollOutcome) (st : LoopSt),
      st.rd.error = none →
      (pollLoop env planner domain problem polls st).1.error ≠ none →
      ∃ name, Effect.write debug_dir name ∈
        (pollLoop env planner domain problem polls st).2.1 := by
  intro polls
  induction polls with
  | nil =>
    intro st _ _
    exact ⟨timeoutName domain planner problem, List.mem_singleton.mpr rfl⟩
  | cons poll rest ih =>
    intro st hinv
    cases poll with
    | transient =>
      intro hne
      unfold pollLoop at hne ⊢
      dsimp only at hne ⊢
      rcases ih st hinv hne with ⟨name, hn⟩
      exact ⟨name, List.mem_cons_of_mem _ hn⟩
    | response d tick =>
      unfold pollLoop
      dsimp only
      split
      · -- status ok
        split
        · -- result present
          split
          · -- plan nonempty: solved exit; error stays none
            intro hne
            exfalso
            apply hne
            show (updateRaw env st.rd d).error = none
            rw [(updateRaw_fields env st.rd d).1, hinv]
          · -- plan empty
            split
            · -- tick
              split
              · -- delfi ∧ count < 5
                split
                · -- save: the debug write itself is in the effects
                  intro _
                  exact ⟨debugName domain planner problem,
                    List.mem_cons_of_mem _ (List.mem_cons_self _ _)⟩
                · -- no save: recurse
                  intro hne
                  rcases ih _ (by
                    show (updateRaw env st.rd d).error = none
                    rw [(updateRaw_fields env st.rd d).1, hinv]) hne with ⟨name, hn⟩
                  exact ⟨name, List.mem_cons_of_mem _ hn⟩
              · intro hne
                rcases ih _ (by
                  show (updateRaw env st.rd d).error = none
                  rw [(updateRaw_fields env st.rd d).1, hinv]) hne with ⟨name, hn⟩
                exact ⟨name, List.mem_cons_of_mem _ hn⟩
            · intro hne
              rcases ih _ (by
                show (updateRaw env st.rd d).error = none
                rw [(updateRaw_fields env st.rd d).1, hinv]) hne with ⟨name, hn⟩
              exact ⟨name, List.mem_cons_of_mem _ hn⟩
        · -- no result field: recurse
          intro hne
          rcases ih _ (by
            show (updateRaw env st.rd d).error = none
            rw [(updateRaw_fields env st.rd d).1, hinv]) hne with ⟨name, hn⟩
          exact ⟨name, List.mem_cons_of_mem _ hn⟩
      · split
        · -- planning failed exit
          intro _
          exact ⟨failedName domain planner problem,
            List.mem_cons_of_mem _ (List.mem_cons_self _ _)⟩
        · -- other status: recurse
          intro hne
          rcases ih st hinv hne with ⟨name, hn⟩
          exact ⟨name, List.mem_cons_of_mem _ hn⟩

theorem pollLoop_inv (env : RunEnv) (planner domain problem : String) :
    ∀ (polls : List PollOutcome) (st : LoopSt),
      (st.rd.plan_length = st.rd.plan.length ∧
        (st.rd.solved = true ↔ st.rd.plan ≠ [])) →
      ((pollLoop env planner domain problem polls st).1.plan_length =
          (pollLoop env planner domain problem polls st).1.plan.length ∧
        ((pollLoop env planner domain problem polls st).1.solved = true ↔
          (pollLoop env planner domain problem polls st).1.plan ≠ [])) := by
  intro polls
  induction polls with
  | nil =>
    intro st hinv
    exact hinv
  | cons poll rest ih =>
    intro st hinv
    cases poll with
    | transient =>
      unfold pollLoop
      dsimp only
      exact ih st hinv
    | response d tick =>
      unfold pollLoop
      dsimp only
      split
      · split
        · split
          · -- solved exit: fields are set coherently
            rename_i res heq hplan
            constructor
            · rfl
            · constructor
              · intro _
                exact hplan
              · intro _
                rfl
          · have hinv2 : (updateRaw env st.rd d).plan_length =
                (updateRaw env st.rd d).plan.length ∧
                ((updateRaw env st.rd d).solved = true ↔
                  (updateRaw env st.rd d).plan ≠ []) := by
              rcases updateRaw_fields env st.rd d with ⟨-, h2, h3, h4⟩
              rw [h2, h3, h4]
              exact hinv
            split
            · split
              · split
                · exact ih _ hinv2
                · exact ih _ hinv2
              · exact ih _ hinv2
            · exact ih _ hinv2
        · have hinv2 : (updateRaw env st.rd d).plan_length =
              (updateRaw env st.rd d).plan.length ∧
              ((updateRaw env st.rd d).solved = true ↔
                (updateRaw env st.rd d).plan ≠ []) := by
            rcases updateRaw_fields env st.rd d with ⟨-, h2, h3, h4⟩
            rw [h2, h3, h4]
            exact hinv
          exact ih _ hinv2
      · split
        · exact hinv
        · exact ih st hinv

/-- C8 counterexample, refuting the claim as stated: for a non-blacklisted,
uncached experiment whose domain is not loaded — an unrecoverable local
error, terminal and not a transient polling error — the controller returns
the error result with an empty effect list: no diagnostic artifact is
persisted. -/
theorem C8_counterexample :
    run_experiment_with_extended_timeout trivEnv "lama-first" "instance-4.pddl"
      "barman" "barman_files" [] =
      (RunResult.localError "Domain not loaded", [], []) := by
  rfl

/-- C8 (amended): every experiment that terminates in a submission error
(non-200 response, missing result-location field, or an exception during
submission), a planning failure, or a timeout persists a diagnostic
artifact to the debug directory before the controller returns; an
unrecoverable local error (domain not loaded, problem file not found)
returns an error result without persisting any artifact; the controller is
total, so the batch loop always continues to the next experiment. -/
theorem C8_amended_error_artifacts :
    ∀ (env : RunEnv) (planner problem domain problem_dir : String)
      (dbg : DebugState),
      (∀ r : ResultData,
        (run_experiment_with_extended_timeout env planner problem domain
          problem_dir dbg).1 = RunResult.finished r →
        r.error ≠ none →
        ∃ name, Effect.write debug_dir name ∈
          (run_experiment_with_extended_timeout env planner problem domain
            problem_dir dbg).2.1) ∧
      (∀ msg : String,
        (run_experiment_with_extended_timeout env planner problem domain
          problem_dir dbg).1 = RunResult.localError msg →
        (run_experiment_with_extended_timeout env planner problem domain
          problem_dir dbg).2.1 = []) := by
  intro env planner problem domain problem_dir dbg
  unfold run_experiment_with_extended_timeout
  dsimp only
  split
  · exact ⟨fun r h => absurd h (by simp), fun msg h => rfl⟩
  · split
    · exact ⟨fun r h => absurd h (by simp), fun msg h => rfl⟩
    · split
      · exact ⟨fun r h => absurd h (by simp), fun msg h => rfl⟩
      · split
        · exact ⟨fun r h => absurd h (by simp), fun msg h => rfl⟩
        · split
          · exact ⟨fun r h => absurd h (by simp), fun msg h => rfl⟩
          · split
            · -- POST raised
              refine ⟨fun r h hne => ?_, fun msg h => absurd h (by simp)⟩
              exact ⟨failedName domain planner problem,
                List.mem_cons_of_mem _ (List.mem_cons_self _ _)⟩
            · split
              · -- non-200
                refine ⟨fun r h hne => ?_, fun msg h => absurd h (by simp)⟩
                exact ⟨failedName domain planner problem,
                  List.mem_cons_of_mem _ (List.mem_cons_self _ _)⟩
              · split
                · -- missing result-location field
                  refine ⟨fun r h hne => ?_, fun msg h => absurd h (by simp)⟩
                  exact ⟨failedName domain planner problem,
                    List.mem_cons_of_mem _ (List.mem_cons_self _ _)⟩
                · -- polling loop
                  refine ⟨fun r h hne => ?_, fun msg h => absurd h (by simp)⟩
                  have h2 : (pollLoop env planner domain problem env.polls
                      { rd := initRD planner problem domain (get_timeout planner problem),
                        dbg := dbg, debugSaveCount := 0 }).1 = r := by
                    injection h
                  rcases pollLoop_error_persists env planner domain problem env.polls
                      { rd := initRD planner problem domain (get_timeout planner problem),
                        dbg := dbg, debugSaveCount := 0 }
                      rfl (h2 ▸ hne) with ⟨name, hn⟩
                  exact ⟨name, List.mem_cons_of_mem _ hn⟩

/-- C10: whenever the controller gets past the blacklist, cache, and
local-precondition checks and returns a fresh result record, that record
satisfies `plan_length = len(plan)` and `solved` holds exactly when the
plan is non-empty — on the solved, failed, timeout, and exception paths
alike. -/
theorem C10_fresh_record_invariant :
    ∀ (env : RunEnv) (planner problem domain problem_dir : String)
      (dbg : DebugState) (r : ResultData),
      (run_experiment_with_extended_timeout env planner problem domain
        problem_dir dbg).1 = RunResult.finished r →
      r.plan_length = r.plan.length ∧ (r.solved = true ↔ r.plan ≠ []) := by
  intro env planner problem domain problem_dir dbg r
  unfold run_experiment_with_extended_timeout
  dsimp only
  split
  · intro h
    exact absurd h (by simp)
  · split
    · intro h
      exact absurd h (by simp)
    · split
      · intro h
        exact absurd h (by simp)
      · split
        · intro h
          exact absurd h (by simp)
        · split
          · intro h
            exact absurd h (by simp)
          · split
            · intro h
              injection h with h2
              rw [← h2]
              exact ⟨rfl, by simp [initRD]⟩
            · split
              · intro h
                injection h with h2
                rw [← h2]
                exact ⟨rfl, by simp [initRD]⟩
              · split
                · intro h
                  injection h with h2
                  rw [← h2]
                  exact ⟨rfl, by simp [initRD]⟩
                · intro h
                  injection h with h2
                  rw [← h2]
                  exact pollLoop_inv env planner domain problem env.polls
                    { rd := initRD planner problem domain (get_timeout planner problem),
                      dbg := dbg, debugSaveCount := 0 }
                    ⟨rfl, by simp [initRD]⟩

/-- A concrete environment for which the POST raises an exception. -/
def envPost : RunEnv :=
  { domains := fun _ => some "(define (domain barman))",
    resultsFs := fun _ => none,
    problemExists := fun _ => true,
    post := PostOutcome.exn "boom",
    polls := [],
    monitor := fun _ => ProgressInfo.empty }

/-- The record the controller produces in `envPost` for optic on
barman/instance-4. -/
def rX : ResultData :=
  { rdomain := "barman", rplanner := "optic", rproblem := "instance-4.pddl",
    timeout_used := 840, solved := false, plan := [], plan_length := 0,
    raw := none, error := some "boom", progress_info := ProgressInfo.empty }

/-- Witness for C8 (amended): a submission exception persists a `_FAILED`
artifact to the debug directory. -/
theorem C8_witness :
    ∃ name, Effect.write debug_dir name ∈
      (run_experiment_with_extended_timeout envPost "optic" "instance-4.pddl"
        "barman" "barman_files" []).2.1 :=
  (C8_amended_error_artifacts envPost "optic" "instance-4.pddl" "barman"
    "barman_files" []).1 rX (by rfl) (by simp [rX])

/-- Witness for C10: the exception-path record satisfies the invariant. -/
theorem C10_witness :
    rX.plan_length = rX.plan.length ∧ (rX.solved = true ↔ rX.plan ≠ []) :=
  C10_fresh_record_invariant envPost "optic" "instance-4.pddl" "barman"
    "barman_files" [] rX (by rfl)
